import Mathlib

/-!
Shallow embedding of the `use-prms` URL-state synchronization library
(`src/useUrlState.ts`, `src/multiParams.ts`, binary codec module), together
with theorems checking the natural-language specification against it.

Conventions of the embedding:
* `Encoded` (`string | undefined` in TS) is `Option String`;
  `MultiEncoded` (`string[]`) is `List String`.
* The parsed location state (`Record<string, MultiEncoded>`) is a total map
  `String → List String`; a key that is absent maps to `[]` (the code itself
  collapses absence this way via `urlParams[key] ?? []`, and `delete` of a
  key is modelled as mapping it to `[]`).
* React refs become explicit state records threaded through the render and
  setter functions; `useSyncExternalStore` reads become explicit `raw` /
  `urlParams` arguments.
* The debounced write (`debouncedWriteRef`) is modelled in the hook machine
  as an `Option` holding the scheduled `writeToUrl` arguments: calling the
  debounced function replaces the payload, `cancel` clears it, and the timer
  firing consumes it.  The generic `debounce` helper itself (with real
  `setTimeout` / `clearTimeout` bookkeeping and fire times) is modelled
  separately as `DebSt` below.
* The `LocationStrategy` (from `core.ts`, consumed as an interface by the
  hooks) stays abstract: a structure with `parse` (a pure function of the
  raw string) and `buildUrl`.
-/

namespace UsePrms

/-- `Encoded = string | undefined` from `index.ts`. -/
abbrev Encoded := Option String

/-- `MultiEncoded = string[]` from `core.ts`. -/
abbrev MultiEncoded := List String

/-- `Param<T>` from `index.ts`: a single-value codec. -/
structure Param (T : Type) where
  encode : T → Encoded
  decode : Encoded → T

/-- `MultiParam<T>` from `multiParams.ts`: a repeated-value codec. -/
structure MultiParam (T : Type) where
  encode : T → MultiEncoded
  decode : MultiEncoded → T

/-- `singleToMulti` from `useUrlState.ts`. -/
def singleToMulti (encoded : Encoded) : MultiEncoded :=
  match encoded with
  | none => []
  | some e => [e]

/-- `multiToSingle` from `useUrlState.ts`: `[]` is `undefined`, otherwise the
first element. -/
def multiToSingle (multi : MultiEncoded) : Encoded :=
  if multi.length = 0 then none
  else multi.head?

/-- `arraysEqual` from `useUrlState.ts`:
`a.length === b.length && a.every((v, i) => v === b[i])`. -/
def arraysEqual (a b : List String) : Bool :=
  a.length == b.length && (List.range a.length).all fun i => a.getD i "" == b.getD i ""

/-- The abstract location strategy interface (`LocationStrategy` in
`core.ts`): `parse` is a pure function of the raw location string,
`buildUrl` turns a parsed state back into a raw string.  The hooks only use
it through this interface. -/
structure Strategy where
  parse : String → (String → MultiEncoded)
  buildUrl : (String → MultiEncoded) → String

/-- State of one `useUrlState` hook instance: the three refs of the hook
plus the scheduled (debounced) write payload.  `lastWritten` is
`lastWrittenRef` (`{encoded, decoded} | null`), `pending` is `pendingRef`
(`{decoded, prevRaw} | null`), `cache` is `cacheRef` (the memoized decode),
and `timer` holds the arguments of the scheduled `writeToUrl` call when the
debounced write is armed. -/
structure SingleSt (T : Type) where
  lastWritten : Option (Encoded × T)
  pending : Option (T × String)
  cache : Option (Encoded × T)
  timer : Option (T × Encoded)

/-- The `cacheRef` update in `useUrlState`: reuse the cached decode when the
encoded value is unchanged, otherwise decode afresh.  (The TS code also
invalidates when the `param` object identity changes; the modelled hook
instance has one fixed `param`, so that disjunct is constantly false.) -/
def updateCache {T : Type} (param : Param T) (encoded : Encoded)
    (c : Option (Encoded × T)) : Encoded × T :=
  match c with
  | some (e, d) => if e = encoded then (e, d) else (encoded, param.decode encoded)
  | none => (encoded, param.decode encoded)

/-- Result of one observation (render) of `useUrlState`: the exposed value
and the updated hook state. -/
structure RenderOut (T : Type) where
  value : T
  st : SingleSt T

/-- One observation (render) of `useUrlState` (lines 171-206 of
`useUrlState.ts`): reads `encoded` from the snapshot, then computes the
exposed value with the PendingWrite / CausalityRecord / fresh-decode
priority, including debounce-window external-change detection (discard
pending, cancel the debounced write, clear `lastWritten`, fall through to a
fresh decode). -/
def render {T : Type} (param : Param T) (key : String) (raw : String)
    (urlParams : String → MultiEncoded) (s : SingleSt T) : RenderOut T :=
  let encoded := multiToSingle (urlParams key)
  match s.pending with
  | some (d, prevRaw) =>
    if raw = prevRaw then
      -- Still in debounce window — return the value we intend to write
      { value := d, st := s }
    else
      -- URL changed externally during debounce — discard pending, cancel
      -- the debounced write, decode from the URL, clear causality tracking
      let c := updateCache param encoded s.cache
      { value := c.2
        st := { lastWritten := none, pending := none, cache := some c, timer := none } }
  | none =>
    match s.lastWritten with
    | some (e, d) =>
      if e = encoded then
        -- URL caught up to our write — use authoritative value
        { value := d, st := s }
      else
        let c := updateCache param encoded s.cache
        { value := c.2, st := { s with lastWritten := none, cache := some c } }
    | none =>
      let c := updateCache param encoded s.cache
      { value := c.2, st := { s with lastWritten := none, cache := some c } }

/-- `setValue` of `useUrlState` in the debounced configuration
(`debounceMs > 0`, lines 254-271): record causality, buffer the pending
value with the raw string observed at schedule time, and (re)arm the
debounced write with the new arguments (replacing any previous payload). -/
def setValue {T : Type} (param : Param T) (v : T) (raw : String)
    (s : SingleSt T) : SingleSt T :=
  let newEncoded := param.encode v
  { s with
    lastWritten := some (newEncoded, v)
    pending := some (v, raw)
    timer := some (v, newEncoded) }

/-- The parameter-map update performed by `writeToUrl` of `useUrlState`
(lines 209-231): delete the key when the new encoded value is absent,
otherwise replace the key's whole value list with the one-element list. -/
def writeToUrlParams (key : String) (newEncoded : Encoded)
    (currentParams : String → MultiEncoded) : String → MultiEncoded :=
  fun k =>
    if k = key then
      match newEncoded with
      | none => []
      | some e => [e]
    else currentParams k

/-- The debounced write firing for `useUrlState`: if a write is scheduled,
parse the current location afresh, apply the single-key update, rebuild the
raw string, and clear the pending buffer; otherwise do nothing.  Returns
the new hook state and the new raw location string. -/
def timerFire {T : Type} (strategy : Strategy) (key : String)
    (s : SingleSt T) (raw : String) : SingleSt T × String :=
  match s.timer with
  | none => (s, raw)
  | some (_, e) =>
    let currentParams := strategy.parse raw
    let newParams := writeToUrlParams key e currentParams
    ({ s with timer := none, pending := none }, strategy.buildUrl newParams)

/-- State of one `useMultiUrlState` hook instance (this hook has no decode
cache in the source). -/
structure MultiSt (T : Type) where
  lastWritten : Option (MultiEncoded × T)
  pending : Option (T × String)
  timer : Option MultiEncoded

/-- One observation (render) of `useMultiUrlState` (lines 522-540 of
`useUrlState.ts`): same protocol as `render` but with the full value list as
the encoded form and `arraysEqual` as the causality-record comparison. -/
def renderMulti {T : Type} (param : MultiParam T) (key : String) (raw : String)
    (urlParams : String → MultiEncoded) (s : MultiSt T) : T × MultiSt T :=
  let encoded := urlParams key
  match s.pending with
  | some (d, prevRaw) =>
    if raw = prevRaw then
      (d, s)
    else
      (param.decode encoded, { lastWritten := none, pending := none, timer := none })
  | none =>
    match s.lastWritten with
    | some (e, d) =>
      if arraysEqual e encoded then (d, s)
      else (param.decode encoded, { s with lastWritten := none })
    | none => (param.decode encoded, { s with lastWritten := none })

/-- `getSnapshot` from `useUrlState.ts` with the module-level `snapshotCache`
(a `WeakMap` keyed by strategy) made explicit: return the cached snapshot
when the raw string is unchanged, otherwise parse and update only this
strategy's cache entry.  `S` is the type of strategy handles (cache keys),
`Snap` the snapshot type. -/
def getSnapshot {S Snap : Type} [DecidableEq S]
    (getRaw : S → String) (parse : S → Snap)
    (cache : S → Option (String × Snap)) (strategy : S) :
    Snap × (S → Option (String × Snap)) :=
  let raw := getRaw strategy
  match cache strategy with
  | some (r, snap) =>
    if r = raw then (snap, cache)
    else
      let snapshot := parse strategy
      (snapshot, fun s => if s = strategy then some (raw, snapshot) else cache s)
  | none =>
    let snapshot := parse strategy
    (snapshot, fun s => if s = strategy then some (raw, snapshot) else cache s)

/-- Well-formedness of the decode cache of a `useUrlState` instance: the
cached decoded value is the decode of the cached encoded value.  Every
cache write in the source stores `{encoded, decoded: param.decode(encoded)}`,
so this holds for every reachable state. -/
def CacheWF {T : Type} (param : Param T) (s : SingleSt T) : Prop :=
  ∀ e d, s.cache = some (e, d) → d = param.decode e

/-- State of one `useUrlStates` hook instance: per-key causality records
(`lastWrittenRef`, a record keyed by param key), the batched pending buffer
(`pendingRef` with its accumulated `values` map and `prevRaw`), and the
scheduled batched write payload. -/
structure StatesSt (V : Type) where
  lastWritten : String → Option (Encoded × V)
  pending : Option ((String → Option V) × String)
  timer : Option (List (String × (Encoded × V)))

/-- One observation (render) of `useUrlStates` (lines 338-386 of
`useUrlState.ts`): with a dead pending buffer (raw changed) everything is
cleared and every key is decoded fresh; with a live pending buffer the
pending values are merged over causality records and fresh decodes; with no
pending buffer each key consults its causality record, deleting it on a
miss. -/
def renderStates {V : Type} (params : List (String × Param V)) (raw : String)
    (urlParams : String → MultiEncoded) (s : StatesSt V) :
    List (String × V) × StatesSt V :=
  match s.pending with
  | some (pv, prevRaw) =>
    if raw = prevRaw then
      (params.map fun kp =>
        match pv kp.1 with
        | some v => (kp.1, v)
        | none =>
          let encoded := multiToSingle (urlParams kp.1)
          match s.lastWritten kp.1 with
          | some (e, d) => if e = encoded then (kp.1, d) else (kp.1, kp.2.decode encoded)
          | none => (kp.1, kp.2.decode encoded),
       s)
    else
      (params.map fun kp => (kp.1, kp.2.decode (multiToSingle (urlParams kp.1))),
       { lastWritten := fun _ => none, pending := none, timer := none })
  | none =>
    let out := params.foldl
      (fun acc kp =>
        let encoded := multiToSingle (urlParams kp.1)
        match acc.2 kp.1 with
        | some (e, d) =>
          if e = encoded then (acc.1 ++ [(kp.1, d)], acc.2)
          else (acc.1 ++ [(kp.1, kp.2.decode encoded)],
                fun k => if k = kp.1 then none else acc.2 k)
        | none =>
          (acc.1 ++ [(kp.1, kp.2.decode encoded)],
           fun k => if k = kp.1 then none else acc.2 k))
      ([], s.lastWritten)
    (out.1, { s with lastWritten := out.2 })

/-- The parameter-map update loop of the batched `writeToUrl` of
`useUrlStates` (lines 393-402): for each update, delete the key when its
encoded value is absent, otherwise replace it with the one-element list. -/
def applyUpdates (updates : List (String × Encoded))
    (currentParams : String → MultiEncoded) : String → MultiEncoded :=
  updates.foldl
    (fun m ke => fun k =>
      if k = ke.1 then
        match ke.2 with
        | none => []
        | some e => [e]
      else m k)
    currentParams

/-- The parameter-map update loop of the batched `writeToUrl` of
`useMultiUrlStates` (lines 711-719): delete the key when the new value list
is empty, otherwise replace it. -/
def applyUpdatesMulti (updates : List (String × MultiEncoded))
    (currentParams : String → MultiEncoded) : String → MultiEncoded :=
  updates.foldl
    (fun m ke => fun k =>
      if k = ke.1 then
        if ke.2.length = 0 then [] else ke.2
      else m k)
    currentParams

/-- The debounced batched write firing for `useUrlStates`: parse the current
location afresh, apply all buffered updates, rebuild the raw string, clear
the pending buffer. -/
def statesTimerFire {V : Type} (strategy : Strategy) (s : StatesSt V)
    (raw : String) : StatesSt V × String :=
  match s.timer with
  | none => (s, raw)
  | some updates =>
    let currentParams := strategy.parse raw
    let newParams := applyUpdates (updates.map fun ke => (ke.1, ke.2.1)) currentParams
    ({ s with timer := none, pending := none }, strategy.buildUrl newParams)

/-- The body of the encoding loop of `setValues` in `useUrlStates`
(lines 440-447): look up the configured codec for the update's key; a key
with no codec is skipped (`if (!param) continue`); otherwise append the
encoded update and set the causality record. -/
def setValuesStep {V : Type} (params : String → Option (Param V))
    (acc : List (String × (Encoded × V)) × (String → Option (Encoded × V)))
    (kv : String × V) :
    List (String × (Encoded × V)) × (String → Option (Encoded × V)) :=
  match params kv.1 with
  | none => acc
  | some p =>
    let e := p.encode kv.2
    (acc.1 ++ [(kv.1, (e, kv.2))],
     fun k => if k = kv.1 then some (e, kv.2) else acc.2 k)

/-- The encoding loop of `setValues` in `useUrlStates` (lines 438-447).
Returns the accumulated `encodedUpdates` (in iteration order) and the
updated `lastWrittenRef` map. -/
def setValuesEncode {V : Type} (params : String → Option (Param V))
    (updates : List (String × V))
    (lastWritten : String → Option (Encoded × V)) :
    List (String × (Encoded × V)) × (String → Option (Encoded × V)) :=
  updates.foldl (setValuesStep params) ([], lastWritten)

/-- The body of the encoding loop of `setValues` in `useMultiUrlStates`
(lines 753-760): same skip-on-missing-codec shape, with repeated-value
codecs (the encoded updates store only the encoded list). -/
def setValuesStepMulti {V : Type} (params : String → Option (MultiParam V))
    (acc : List (String × MultiEncoded) × (String → Option (MultiEncoded × V)))
    (kv : String × V) :
    List (String × MultiEncoded) × (String → Option (MultiEncoded × V)) :=
  match params kv.1 with
  | none => acc
  | some p =>
    let e := p.encode kv.2
    (acc.1 ++ [(kv.1, e)],
     fun k => if k = kv.1 then some (e, kv.2) else acc.2 k)

/-- The encoding loop of `setValues` in `useMultiUrlStates`
(lines 751-760). -/
def setValuesEncodeMulti {V : Type} (params : String → Option (MultiParam V))
    (updates : List (String × V))
    (lastWritten : String → Option (MultiEncoded × V)) :
    List (String × MultiEncoded) × (String → Option (MultiEncoded × V)) :=
  updates.foldl (setValuesStepMulti params) ([], lastWritten)

/-! The generic `debounce` helper (lines 33-55 of `useUrlState.ts`), with
the browser timer machinery (`setTimeout` / `clearTimeout`) made explicit.
A `DebSt` carries the scheduler's live tasks (with their ids and fire
times), the closure's captured `timeoutId`, and the list of commits the
wrapped function has performed. -/

/-- One scheduled timeout: its id, its fire time, and the captured call
arguments of the debounced function. -/
structure DebTask (α : Type) where
  id : Nat
  fireAt : Nat
  payload : α

/-- State of a debounced function plus the timer scheduler plus the log of
commits performed by the wrapped function. -/
structure DebSt (α : Type) where
  nextId : Nat
  tasks : List (DebTask α)
  timeoutId : Option Nat
  commits : List α

/-- Fresh debounced function: no live timers, nothing committed. -/
def debInit {α : Type} : DebSt α :=
  { nextId := 0, tasks := [], timeoutId := none, commits := [] }

/-- Calling the debounced function at time `now` with arguments `a`
(lines 39-45): `clearTimeout` any live timer, then `setTimeout` a new task
`ms` from now carrying the latest arguments. -/
def debCall {α : Type} (ms now : Nat) (a : α) (s : DebSt α) : DebSt α :=
  let tasks :=
    match s.timeoutId with
    | some i => s.tasks.filter fun t => t.id != i
    | none => s.tasks
  { nextId := s.nextId + 1
    tasks := tasks ++ [⟨s.nextId, now + ms, a⟩]
    timeoutId := some s.nextId
    commits := s.commits }

/-- Time advancing to `now`: every due task fires; firing sets
`timeoutId` to `null` and runs the wrapped function (recorded as a
commit), as in lines 41-44. -/
def debTick {α : Type} (now : Nat) (s : DebSt α) : DebSt α :=
  let due := s.tasks.filter fun t => t.fireAt ≤ now
  let rest := s.tasks.filter fun t => ¬ t.fireAt ≤ now
  { nextId := s.nextId
    tasks := rest
    timeoutId := if due.isEmpty then s.timeoutId else none
    commits := s.commits ++ due.map fun t => t.payload }

/-- An event in a debounce run: a call to the debounced function, or time
reaching `now`. -/
inductive DebEv (α : Type) where
  | call (now : Nat) (a : α)
  | tick (now : Nat)

/-- Step a debounce state by one event. -/
def debStep {α : Type} (ms : Nat) (s : DebSt α) (e : DebEv α) : DebSt α :=
  match e with
  | .call now a => debCall ms now a s
  | .tick now => debTick now s

/-- Run a list of events. -/
def debRun {α : Type} (ms : Nat) (es : List (DebEv α)) (s : DebSt α) : DebSt α :=
  es.foldl (debStep ms) s

/-- The event sequence of a series of timed calls: before each call, time
advances to the call's instant (so any task that were due would fire). -/
def debEvents {α : Type} (calls : List (Nat × α)) : List (DebEv α) :=
  (calls.map fun p => [DebEv.tick p.1, DebEv.call p.1 p.2]).flatten

/-- All calls happen inside one another's delay window: each call time is at
least the previous one and strictly less than the previous one plus `ms`. -/
def ChainFrom {α : Type} (ms : Nat) : Nat → List (Nat × α) → Prop
  | _, [] => True
  | prev, (t, _) :: rest => prev ≤ t ∧ t < prev + ms ∧ ChainFrom ms t rest

/-- At most one live timer: the scheduler holds no task, or exactly the one
task the debounced closure's `timeoutId` points at. -/
def DebInv {α : Type} (s : DebSt α) : Prop :=
  s.tasks = [] ∨ ∃ t, s.tasks = [t] ∧ s.timeoutId = some t.id

/-! Binary encoding module (base64url and `binaryParam`). -/

/-- `BASE64_CHARS`: the RFC 4648 base64url alphabet. -/
def BASE64_CHARS : List Char :=
  ['A','B','C','D','E','F','G','H','I','J','K','L','M',
   'N','O','P','Q','R','S','T','U','V','W','X','Y','Z',
   'a','b','c','d','e','f','g','h','i','j','k','l','m',
   'n','o','p','q','r','s','t','u','v','w','x','y','z',
   '0','1','2','3','4','5','6','7','8','9','-','_']

/-- `BASE64_LOOKUP`: index of a character in the alphabet (a `Map` in the
source; `get` of an absent character is `undefined`, i.e. `none`). -/
def b64lookup (c : Char) : Option Nat :=
  List.findIdx? (fun x => x == c) BASE64_CHARS

/-- `base64Encode`: 3 bytes become 4 six-bit alphabet characters; a final
1- or 2-byte group becomes 2 or 3 characters, with the missing bytes read
as `0` (`bytes[i++] ?? 0`) and no padding emitted.  Bytes are `Nat`s
(elements of a `Uint8Array`, hence `< 256` at runtime). -/
def base64Encode : List Nat → List Char
  | [] => []
  | [b0] =>
    let n := (b0 <<< 16) ||| (0 <<< 8) ||| 0
    [BASE64_CHARS.getD ((n >>> 18) &&& 63) 'A',
     BASE64_CHARS.getD ((n >>> 12) &&& 63) 'A']
  | [b0, b1] =>
    let n := (b0 <<< 16) ||| (b1 <<< 8) ||| 0
    [BASE64_CHARS.getD ((n >>> 18) &&& 63) 'A',
     BASE64_CHARS.getD ((n >>> 12) &&& 63) 'A',
     BASE64_CHARS.getD ((n >>> 6) &&& 63) 'A']
  | b0 :: b1 :: b2 :: rest =>
    let n := (b0 <<< 16) ||| (b1 <<< 8) ||| b2
    [BASE64_CHARS.getD ((n >>> 18) &&& 63) 'A',
     BASE64_CHARS.getD ((n >>> 12) &&& 63) 'A',
     BASE64_CHARS.getD ((n >>> 6) &&& 63) 'A',
     BASE64_CHARS.getD (n &&& 63) 'A'] ++ base64Encode rest

/-- The trailing-padding strip `str.replace(/=+$/, '')` of `base64Decode`. -/
def stripTrailingEq (s : List Char) : List Char :=
  (s.reverse.dropWhile fun c => c == '=').reverse

/-- The chunk loop of `base64Decode`: 4 characters become 3 bytes; a final
group of 1, 2 or 3 characters becomes 1, 1 or 2 bytes, with missing
characters looked up as `0` (`BASE64_LOOKUP.get(...) ?? 0`, and `c2`/`c3`
forced to `0` when past the end). -/
def base64DecodeChunks : List Char → List Nat
  | [] => []
  | [c0] =>
    let n := ((b64lookup c0).getD 0 <<< 18) ||| (0 <<< 12) ||| (0 <<< 6) ||| 0
    [(n >>> 16) &&& 255]
  | [c0, c1] =>
    let n := ((b64lookup c0).getD 0 <<< 18) ||| ((b64lookup c1).getD 0 <<< 12) |||
             (0 <<< 6) ||| 0
    [(n >>> 16) &&& 255]
  | [c0, c1, c2] =>
    let n := ((b64lookup c0).getD 0 <<< 18) ||| ((b64lookup c1).getD 0 <<< 12) |||
             ((b64lookup c2).getD 0 <<< 6) ||| 0
    [(n >>> 16) &&& 255, (n >>> 8) &&& 255]
  | c0 :: c1 :: c2 :: c3 :: rest =>
    let n := ((b64lookup c0).getD 0 <<< 18) ||| ((b64lookup c1).getD 0 <<< 12) |||
             ((b64lookup c2).getD 0 <<< 6) ||| (b64lookup c3).getD 0
    [(n >>> 16) &&& 255, (n >>> 8) &&& 255, n &&& 255] ++ base64DecodeChunks rest

/-- `base64Decode`: strip trailing `=` padding, then decode in groups of
four characters. -/
def base64Decode (s : List Char) : List Nat :=
  base64DecodeChunks (stripTrailingEq s)

/-- `BinaryParamOptions<T>`: the user-supplied byte converters.  `fromBytes`
may throw in TS; a thrown exception is modelled as `none`. -/
structure BinaryParamOptions (T : Type) where
  toBytes : T → List Nat
  fromBytes : List Nat → Option T

/-- `binaryParam`: encode `null` (`none`) and empty byte arrays as absent;
decode absence and the empty string as `null`, and catch any exception from
the byte conversion as `null`. -/
def binaryParam {T : Type} (options : BinaryParamOptions T) : Param (Option T) :=
  { encode := fun value =>
      match value with
      | none => none
      | some v =>
        let bytes := options.toBytes v
        if bytes.length = 0 then none
        else some (String.mk (base64Encode bytes))
    decode := fun encoded =>
      match encoded with
      | none => none
      | some s =>
        if s = "" then none
        else options.fromBytes (base64Decode s.data) }

/-! Concrete fixtures used by the witness theorems. -/

/-- A concrete single-value codec for witnesses. -/
def natParam : Param Nat :=
  { encode := fun n => if n = 0 then none else some (Nat.repr n)
    decode := fun e =>
      match e with
      | none => 0
      | some s => s.length }

/-- A concrete repeated-value codec for witnesses. -/
def natMultiParam : MultiParam Nat :=
  { encode := fun n => List.replicate n "x"
    decode := fun l => l.length }

/-- A pristine `useUrlState` hook state. -/
def emptySt : SingleSt Nat :=
  { lastWritten := none, pending := none, cache := none, timer := none }

/-- A pristine `useMultiUrlState` hook state. -/
def emptyMultiSt : MultiSt Nat :=
  { lastWritten := none, pending := none, timer := none }

/-- An empty location snapshot. -/
def noParams : String → MultiEncoded := fun _ => []

/-- Concrete raw accessor for the C4 witness. -/
def wGetRaw : Nat → String := fun _ => "r"

/-- Concrete parser for the C4 witness (would produce `7`, distinct from the
cached `5`, so a cache hit visibly avoids it). -/
def wParse : Nat → Nat := fun _ => 7

/-- Concrete cache for the C4 witness: strategy `0` has a fresh entry. -/
def wCache : Nat → Option (String × Nat) := fun s => if s = 0 then some ("r", 5) else none

/-- Single-hook state with a causality record, for the C5 witness. -/
def wSingleSt : SingleSt Nat :=
  { lastWritten := some (some "ab", 9), pending := none, cache := none, timer := none }

/-- Multi-hook state with a mismatching causality record, for the C5
witness. -/
def wMultiSt : MultiSt Nat :=
  { lastWritten := some (["x"], 3), pending := none, timer := none }

/-- Snapshot with `k = ["ab"]`, for the C5 and C10 witnesses. -/
def wParams : String → MultiEncoded := fun k => if k = "k" then ["ab"] else []

/-- Snapshot with `k = ["a", "b"]`, for the C10 witness. -/
def wParamsAB : String → MultiEncoded := fun k => if k = "k" then ["a", "b"] else []

/-- Snapshot with `k = ["a"]`, for the C10 witness. -/
def wParamsA : String → MultiEncoded := fun k => if k = "k" then ["a"] else []

/-- Single-hook state with a pending write scheduled at raw `"old"`, for the
C2 witness. -/
def wPendingSt : SingleSt Nat :=
  { lastWritten := some (some "42", 42), pending := some (42, "old")
    cache := none, timer := some (42, some "42") }

/-- Batched-hook state with a pending write scheduled at raw `"old"`, for
the C2 witness. -/
def wPendingStates : StatesSt Nat :=
  { lastWritten := fun _ => none
    pending := some ((fun _ => some (1 : Nat)), "old")
    timer := some [("k", (some "1", 1))] }

/-- A trivial concrete strategy for witnesses. -/
def wStrategy : Strategy :=
  { parse := fun _ => fun _ => [], buildUrl := fun _ => "built" }

/-- Snapshot with an untouched repeated-value key `u`, for the C6
witness. -/
def wParamsU : String → MultiEncoded := fun k => if k = "u" then ["p", "q"] else []

/-- Codec configuration with only key `a` configured, for the C7 witness. -/
def wConfig : String → Option (Param Nat) :=
  fun key => if key = "a" then some natParam else none

/-- Multi-codec configuration with only key `m` configured, for the C7
witness. -/
def wConfigMulti : String → Option (MultiParam Nat) :=
  fun key => if key = "m" then some natMultiParam else none

/-- Batched updates touching a configured key and an unconfigured key, for
the C7 witness. -/
def wUpdates : List (String × Nat) := [("a", 5), ("zz", 7)]

/-- Batched multi updates touching a configured key and an unconfigured
key, for the C7 witness. -/
def wUpdatesMulti : List (String × Nat) := [("m", 2), ("zz", 3)]

/-- Byte converters for the C9 witness: `toBytes` of `0` is empty, and
`fromBytes` always throws. -/
def wBinOpts : BinaryParamOptions Nat :=
  { toBytes := fun n => List.replicate n 7
    fromBytes := fun _ => none }

/-! ## Theorems -/

theorem updateCache_snd {T : Type} (param : Param T) (encoded : Encoded)
    (c : Option (Encoded × T))
    (h : ∀ e d, c = some (e, d) → d = param.decode e) :
    (updateCache param encoded c).2 = param.decode encoded := by
  unfold updateCache
  match c with
  | none => rfl
  | some (e, d) =>
    by_cases he : e = encoded
    · simp only [if_pos he]
      rw [h e d rfl, he]
    · simp [he]

theorem arraysEqual_iff (a b : List String) : arraysEqual a b = true ↔ a = b := by
  unfold arraysEqual
  simp only [Bool.and_eq_true, beq_iff_eq, List.all_eq_true, List.mem_range]
  constructor
  · rintro ⟨hlen, hall⟩
    apply List.ext_getElem hlen
    intro i h₁ h₂
    have := hall i h₁
    rwa [List.getD_eq_getElem a "" h₁, List.getD_eq_getElem b "" h₂] at this
  · rintro rfl
    exact ⟨rfl, fun i _ => rfl⟩

theorem render_pending_live {T : Type} (param : Param T) (key raw : String)
    (urlParams : String → MultiEncoded) (s : SingleSt T) (d : T) (prevRaw : String)
    (hp : s.pending = some (d, prevRaw)) (hr : raw = prevRaw) :
    render param key raw urlParams s = { value := d, st := s } := by
  unfold render
  rw [hp]
  simp [hr]

theorem render_pending_dead {T : Type} (param : Param T) (key raw : String)
    (urlParams : String → MultiEncoded) (s : SingleSt T) (d : T) (prevRaw : String)
    (hp : s.pending = some (d, prevRaw)) (hr : raw ≠ prevRaw) :
    render param key raw urlParams s =
      { value := (updateCache param (multiToSingle (urlParams key)) s.cache).2,
        st := { lastWritten := none, pending := none,
                cache := some (updateCache param (multiToSingle (urlParams key)) s.cache),
                timer := none } } := by
  unfold render
  rw [hp]
  simp [hr]

theorem render_lw_hit {T : Type} (param : Param T) (key raw : String)
    (urlParams : String → MultiEncoded) (s : SingleSt T) (e : Encoded) (d : T)
    (hp : s.pending = none) (hlw : s.lastWritten = some (e, d))
    (he : e = multiToSingle (urlParams key)) :
    render param key raw urlParams s = { value := d, st := s } := by
  unfold render
  rw [hp, hlw]
  simp [he]

theorem render_lw_miss {T : Type} (param : Param T) (key raw : String)
    (urlParams : String → MultiEncoded) (s : SingleSt T) (e : Encoded) (d : T)
    (hp : s.pending = none) (hlw : s.lastWritten = some (e, d))
    (he : e ≠ multiToSingle (urlParams key)) :
    render param key raw urlParams s =
      { value := (updateCache param (multiToSingle (urlParams key)) s.cache).2,
        st := { s with
                lastWritten := none,
                cache := some (updateCache param (multiToSingle (urlParams key)) s.cache) } } := by
  unfold render
  rw [hp, hlw]
  simp [he]

theorem render_no_lw {T : Type} (param : Param T) (key raw : String)
    (urlParams : String → MultiEncoded) (s : SingleSt T)
    (hp : s.pending = none) (hlw : s.lastWritten = none) :
    render param key raw urlParams s =
      { value := (updateCache param (multiToSingle (urlParams key)) s.cache).2,
        st := { s with
                lastWritten := none,
                cache := some (updateCache param (multiToSingle (urlParams key)) s.cache) } } := by
  unfold render
  rw [hp, hlw]

theorem renderMulti_lw_hit {T : Type} (param : MultiParam T) (key raw : String)
    (u : String → MultiEncoded) (s : MultiSt T) (e : MultiEncoded) (d : T)
    (hp : s.pending = none) (hlw : s.lastWritten = some (e, d))
    (he : arraysEqual e (u key) = true) :
    renderMulti param key raw u s = (d, s) := by
  unfold renderMulti
  rw [hp, hlw]
  simp [he]

theorem renderMulti_lw_miss {T : Type} (param : MultiParam T) (key raw : String)
    (u : String → MultiEncoded) (s : MultiSt T) (e : MultiEncoded) (d : T)
    (hp : s.pending = none) (hlw : s.lastWritten = some (e, d))
    (he : arraysEqual e (u key) = false) :
    renderMulti param key raw u s = (param.decode (u key), { s with lastWritten := none }) := by
  unfold renderMulti
  rw [hp, hlw]
  simp [he]

/-- C1: at every observation of `useUrlState`, the exposed value follows the
fixed priority: a live PendingWrite's buffered decoded value first; else the
CausalityRecord's decoded value when its recorded encoded value equals the
snapshot's encoded value for the key; else a fresh decode of the snapshot.
When the pending buffer is dead (the raw location changed), the causality
record counts as cleared — it is nulled in the same observation — and the
value is a fresh decode.  No snap-back: an observation right after a
(debounced) write request returns the requested value. -/
theorem useUrlState_observable_value_priority {T : Type} (param : Param T)
    (key raw : String) (urlParams : String → MultiEncoded) (s : SingleSt T)
    (hwf : CacheWF param s) :
    (∀ d prevRaw, s.pending = some (d, prevRaw) → raw = prevRaw →
      (render param key raw urlParams s).value = d) ∧
    (s.pending = none → ∀ e d, s.lastWritten = some (e, d) →
      e = multiToSingle (urlParams key) →
      (render param key raw urlParams s).value = d) ∧
    (s.pending = none → s.lastWritten = none →
      (render param key raw urlParams s).value
        = param.decode (multiToSingle (urlParams key))) ∧
    (s.pending = none → ∀ e d, s.lastWritten = some (e, d) →
      e ≠ multiToSingle (urlParams key) →
      (render param key raw urlParams s).value
        = param.decode (multiToSingle (urlParams key))) ∧
    (∀ d prevRaw, s.pending = some (d, prevRaw) → raw ≠ prevRaw →
      (render param key raw urlParams s).value
        = param.decode (multiToSingle (urlParams key)) ∧
      (render param key raw urlParams s).st.lastWritten = none) ∧
    (∀ v, (render param key raw urlParams (setValue param v raw s)).value = v) := by
  refine ⟨?_, ?_, ?_, ?_, ?_, ?_⟩
  · intro d prevRaw hp hr
    rw [render_pending_live param key raw urlParams s d prevRaw hp hr]
  · intro hp e d hlw he
    rw [render_lw_hit param key raw urlParams s e d hp hlw he]
  · intro hp hlw
    rw [render_no_lw param key raw urlParams s hp hlw]
    exact updateCache_snd param _ s.cache hwf
  · intro hp e d hlw he
    rw [render_lw_miss param key raw urlParams s e d hp hlw he]
    exact updateCache_snd param _ s.cache hwf
  · intro d prevRaw hp hr
    rw [render_pending_dead param key raw urlParams s d prevRaw hp hr]
    exact ⟨updateCache_snd param _ s.cache hwf, rfl⟩
  · intro v
    rw [render_pending_live param key raw urlParams (setValue param v raw s) v raw
      (by simp [setValue]) rfl]

/-- Witness for C1: with a pristine hook state, an observation immediately
after a debounced write request of `5` exposes `5`. -/
theorem useUrlState_observable_value_priority_witness :
    CacheWF natParam emptySt ∧
    (render natParam "k" "" noParams (setValue natParam 5 "" emptySt)).value = 5 :=
  ⟨(fun _ _ h => nomatch h),
   (useUrlState_observable_value_priority natParam "k" "" noParams emptySt
      (fun _ _ h => nomatch h)).2.2.2.2.2 5⟩

/-- C4: `getSnapshot` returns the cached snapshot object itself (not a
reparse — the conclusion holds for every `parse` function) exactly when the
raw string is unchanged, leaving the whole cache untouched; it reparses and
updates only this strategy's cache entry when the raw string differs or no
entry exists; and a distinct strategy's cache entry is never read or
overwritten. -/
theorem getSnapshot_memoized_per_strategy {S Snap : Type} [DecidableEq S]
    (getRaw : S → String) (parse : S → Snap)
    (cache : S → Option (String × Snap)) (strategy s' : S)
    (snap : Snap) (r : String) (hne : s' ≠ strategy) :
    (cache strategy = some (getRaw strategy, snap) →
      getSnapshot getRaw parse cache strategy = (snap, cache)) ∧
    (cache strategy = some (r, snap) → r ≠ getRaw strategy →
      (getSnapshot getRaw parse cache strategy).1 = parse strategy ∧
      (getSnapshot getRaw parse cache strategy).2 strategy
        = some (getRaw strategy, parse strategy)) ∧
    (cache strategy = none →
      (getSnapshot getRaw parse cache strategy).1 = parse strategy ∧
      (getSnapshot getRaw parse cache strategy).2 strategy
        = some (getRaw strategy, parse strategy)) ∧
    (getSnapshot getRaw parse cache strategy).2 s' = cache s' := by
  unfold getSnapshot
  refine ⟨?_, ?_, ?_, ?_⟩
  · intro h
    rw [h]
    simp
  · intro h hr
    rw [h]
    simp [hr]
  · intro h
    rw [h]
    simp
  · match hc : cache strategy with
    | none => simp [hne]
    | some (rr, sn) =>
      by_cases hrr : rr = getRaw strategy
      · simp [hrr]
      · simp [hrr, hne]

/-- Witness for C4: a hit on strategy `0` returns the cached `5` (not the
reparse `7`) and leaves strategy `1`'s entry alone. -/
theorem getSnapshot_memoized_per_strategy_witness :
    (1 : Nat) ≠ 0 ∧ wCache 0 = some (wGetRaw 0, 5) ∧
    getSnapshot wGetRaw wParse wCache 0 = (5, wCache) ∧
    (getSnapshot wGetRaw wParse wCache 0).2 1 = wCache 1 :=
  ⟨by decide, by simp [wCache, wGetRaw],
   (getSnapshot_memoized_per_strategy wGetRaw wParse wCache 0 1 5 "r"
      (by decide)).1 (by simp [wCache, wGetRaw]),
   (getSnapshot_memoized_per_strategy wGetRaw wParse wCache 0 1 5 "r"
      (by decide)).2.2.2⟩

/-- C5: a causality-record lookup hits only under exact structural equality
of the current encoded value against the recorded one — `Option String`
equality for the single-value hook, order-sensitive element-wise array
equality (`arraysEqual`, which is exactly list equality) for the
repeated-value hook.  On a hit the recorded decoded value is returned and
the state kept; on a miss (with no pending write) the record is discarded
and the value is a fresh decode. -/
theorem causality_lookup_requires_exact_equality {T U : Type} (param : Param T)
    (mparam : MultiParam U) (key raw : String) (u : String → MultiEncoded)
    (s : SingleSt T) (ms : MultiSt U) (a b : List String)
    (e : Encoded) (d : T) (me : MultiEncoded) (md : U)
    (hp : s.pending = none) (hlw : s.lastWritten = some (e, d))
    (hwf : CacheWF param s)
    (hmp : ms.pending = none) (hmlw : ms.lastWritten = some (me, md)) :
    (arraysEqual a b = true ↔ a = b) ∧
    (e = multiToSingle (u key) →
      (render param key raw u s).value = d ∧ (render param key raw u s).st = s) ∧
    (e ≠ multiToSingle (u key) →
      (render param key raw u s).value = param.decode (multiToSingle (u key)) ∧
      (render param key raw u s).st.lastWritten = none) ∧
    (arraysEqual me (u key) = true →
      (renderMulti mparam key raw u ms).1 = md ∧
      (renderMulti mparam key raw u ms).2 = ms) ∧
    (arraysEqual me (u key) = false →
      (renderMulti mparam key raw u ms).1 = mparam.decode (u key) ∧
      (renderMulti mparam key raw u ms).2.lastWritten = none) := by
  refine ⟨arraysEqual_iff a b, ?_, ?_, ?_, ?_⟩
  · intro he
    rw [render_lw_hit param key raw u s e d hp hlw he]
    exact ⟨rfl, rfl⟩
  · intro he
    rw [render_lw_miss param key raw u s e d hp hlw he]
    exact ⟨updateCache_snd param _ s.cache hwf, rfl⟩
  · intro he
    rw [renderMulti_lw_hit mparam key raw u ms me md hmp hmlw he]
    exact ⟨rfl, rfl⟩
  · intro he
    rw [renderMulti_lw_miss mparam key raw u ms me md hmp hmlw he]
    exact ⟨rfl, rfl⟩

/-- Witness for C5: the single-value record (`"ab"` recorded and present)
hits and returns the recorded `9`; the repeated-value record (`["x"]`
recorded, `["ab"]` present) misses and falls back to a fresh decode. -/
theorem causality_lookup_requires_exact_equality_witness :
    (some "ab" = multiToSingle (wParams "k")) ∧
    arraysEqual ["x"] (wParams "k") = false ∧
    (render natParam "k" "" wParams wSingleSt).value = 9 ∧
    (renderMulti natMultiParam "k" "" wParams wMultiSt).1
      = natMultiParam.decode (wParams "k") :=
  ⟨by decide, by decide,
   ((causality_lookup_requires_exact_equality natParam natMultiParam "k" "" wParams
      wSingleSt wMultiSt [] [] (some "ab") 9 ["x"] 3 rfl rfl
      (fun _ _ h => nomatch h) rfl rfl).2.1 (by decide)).1,
   ((causality_lookup_requires_exact_equality natParam natMultiParam "k" "" wParams
      wSingleSt wMultiSt [] [] (some "ab") 9 ["x"] 3 rfl rfl
      (fun _ _ h => nomatch h) rfl rfl).2.2.2.2 (by decide)).1⟩

/-- C10: the single-value hook collapses repeated URL values — reads go
through `multiToSingle`, which takes only the first value of a repeated key
(the observation is unchanged by anything beyond the first value), and a
write replaces the key's whole value list with the one-element list of the
new encoded value, or deletes the key when the encoded value is absent. -/
theorem single_hook_collapses_repeated_values {T : Type}
    (param : Param T) (key raw : String)
    (u u' : String → MultiEncoded) (s : SingleSt T)
    (v e : String) (rest : List String) (current : String → MultiEncoded)
    (h : multiToSingle (u key) = multiToSingle (u' key)) :
    multiToSingle [] = (none : Encoded) ∧
    multiToSingle (v :: rest) = some v ∧
    render param key raw u s = render param key raw u' s ∧
    writeToUrlParams key (some e) current key = [e] ∧
    writeToUrlParams key none current key = [] := by
  refine ⟨rfl, ?_, ?_, ?_, ?_⟩
  · simp [multiToSingle]
  · unfold render
    rw [h]
  · simp [writeToUrlParams]
  · simp [writeToUrlParams]

/-- Witness for C10: `?k=a&k=b` and `?k=a` are observed identically by the
single-value hook, and a write of `"z"` yields exactly `["z"]`. -/
theorem single_hook_collapses_repeated_values_witness :
    multiToSingle (wParamsAB "k") = multiToSingle (wParamsA "k") ∧
    multiToSingle ["a", "b"] = some "a" ∧
    render natParam "k" "" wParamsAB emptySt = render natParam "k" "" wParamsA emptySt ∧
    writeToUrlParams "k" (some "z") wParamsAB "k" = ["z"] :=
  ⟨by decide,
   (single_hook_collapses_repeated_values natParam "k" "" wParamsAB wParamsA emptySt
      "a" "z" ["b"] wParamsAB (by decide)).2.1,
   (single_hook_collapses_repeated_values natParam "k" "" wParamsAB wParamsA emptySt
      "a" "z" ["b"] wParamsAB (by decide)).2.2.1,
   (single_hook_collapses_repeated_values natParam "k" "" wParamsAB wParamsA emptySt
      "a" "z" ["b"] wParamsAB (by decide)).2.2.2.1⟩

theorem renderStates_pending_dead {V : Type} (params : List (String × Param V))
    (raw : String) (urlParams : String → MultiEncoded) (s : StatesSt V)
    (pv : String → Option V) (prevRaw : String)
    (hp : s.pending = some (pv, prevRaw)) (hr : raw ≠ prevRaw) :
    renderStates params raw urlParams s =
      (params.map fun kp => (kp.1, kp.2.decode (multiToSingle (urlParams kp.1))),
       { lastWritten := fun _ => none, pending := none, timer := none }) := by
  unfold renderStates
  rw [hp]
  simp [hr]

/-- C2: while a debounced write is pending, an observation that sees a raw
location string different from the `prevRaw` captured at schedule time
clears the pending buffer and the causality record together, cancels the
scheduled write (so the originally scheduled commit can never land: a
subsequent timer firing changes nothing), and exposes a fresh decode of the
current location.  The detection compares only the full raw string: when it
is unchanged, the observation keeps the buffered value and touches nothing.
Both the single-key hook and the batched hook behave this way. -/
theorem external_change_invalidates_pending {T V : Type} (param : Param T)
    (strategy : Strategy) (key raw : String) (urlParams : String → MultiEncoded)
    (s : SingleSt T) (d : T) (prevRaw : String)
    (params : List (String × Param V)) (s2 : StatesSt V)
    (pv : String → Option V) (prevRaw2 : String)
    (hp : s.pending = some (d, prevRaw)) (hr : raw ≠ prevRaw)
    (hwf : CacheWF param s)
    (hp2 : s2.pending = some (pv, prevRaw2)) (hr2 : raw ≠ prevRaw2) :
    ((render param key raw urlParams s).st.pending = none ∧
     (render param key raw urlParams s).st.lastWritten = none ∧
     (render param key raw urlParams s).st.timer = none) ∧
    (render param key raw urlParams s).value
      = param.decode (multiToSingle (urlParams key)) ∧
    timerFire strategy key (render param key raw urlParams s).st raw
      = ((render param key raw urlParams s).st, raw) ∧
    (raw = prevRaw → render param key raw urlParams s = { value := d, st := s }) ∧
    ((renderStates params raw urlParams s2).2.pending = none ∧
     (∀ k, (renderStates params raw urlParams s2).2.lastWritten k = none) ∧
     (renderStates params raw urlParams s2).2.timer = none) ∧
    (renderStates params raw urlParams s2).1
      = (params.map fun kp => (kp.1, kp.2.decode (multiToSingle (urlParams kp.1)))) ∧
    statesTimerFire strategy (renderStates params raw urlParams s2).2 raw
      = ((renderStates params raw urlParams s2).2, raw) := by
  rw [render_pending_dead param key raw urlParams s d prevRaw hp hr,
      renderStates_pending_dead params raw urlParams s2 pv prevRaw2 hp2 hr2]
  refine ⟨⟨rfl, rfl, rfl⟩, updateCache_snd param _ s.cache hwf, rfl,
    ?_, ⟨rfl, fun _ => rfl, rfl⟩, rfl, rfl⟩
  intro hre
  exact absurd hre hr

/-- Witness for C2: at raw `"new"` (≠ `"old"`), the observation drops the
pending write, nulls the causality record, disarms the timer, and decodes
fresh. -/
theorem external_change_invalidates_pending_witness :
    wPendingSt.pending = some (42, "old") ∧ ("new" : String) ≠ "old" ∧
    (render natParam "k" "new" noParams wPendingSt).st.pending = none ∧
    (render natParam "k" "new" noParams wPendingSt).value
      = natParam.decode (multiToSingle (noParams "k")) ∧
    timerFire wStrategy "k" (render natParam "k" "new" noParams wPendingSt).st "new"
      = ((render natParam "k" "new" noParams wPendingSt).st, "new") :=
  ⟨rfl, by decide,
   (external_change_invalidates_pending natParam wStrategy "k" "new" noParams
      wPendingSt 42 "old" ([] : List (String × Param Nat)) wPendingStates
      (fun _ => some 1) "old" rfl (by decide) (fun _ _ h => nomatch h)
      rfl (by decide)).1.1,
   (external_change_invalidates_pending natParam wStrategy "k" "new" noParams
      wPendingSt 42 "old" ([] : List (String × Param Nat)) wPendingStates
      (fun _ => some 1) "old" rfl (by decide) (fun _ _ h => nomatch h)
      rfl (by decide)).2.1,
   (external_change_invalidates_pending natParam wStrategy "k" "new" noParams
      wPendingSt 42 "old" ([] : List (String × Param Nat)) wPendingStates
      (fun _ => some 1) "old" rfl (by decide) (fun _ _ h => nomatch h)
      rfl (by decide)).2.2.1⟩

theorem applyUpdates_frame (ups : List (String × Encoded))
    (current : String → MultiEncoded) (k : String) (h : ∀ p ∈ ups, k ≠ p.1) :
    applyUpdates ups current k = current k := by
  induction ups generalizing current with
  | nil => rfl
  | cons u rest ih =>
    have hu : k ≠ u.1 := h u (List.mem_cons_self u rest)
    have hrest : ∀ p ∈ rest, k ≠ p.1 := fun p hp => h p (List.mem_cons_of_mem u hp)
    show applyUpdates rest _ k = current k
    rw [ih _ hrest]
    simp [hu]

theorem applyUpdatesMulti_frame (ups : List (String × MultiEncoded))
    (current : String → MultiEncoded) (k : String) (h : ∀ p ∈ ups, k ≠ p.1) :
    applyUpdatesMulti ups current k = current k := by
  induction ups generalizing current with
  | nil => rfl
  | cons u rest ih =>
    have hu : k ≠ u.1 := h u (List.mem_cons_self u rest)
    have hrest : ∀ p ∈ rest, k ≠ p.1 := fun p hp => h p (List.mem_cons_of_mem u hp)
    show applyUpdatesMulti rest _ k = current k
    rw [ih _ hrest]
    simp [hu]

theorem applyUpdates_updated (ups : List (String × Encoded))
    (current : String → MultiEncoded) (p : String × Encoded)
    (hnd : (ups.map Prod.fst).Nodup) (hp : p ∈ ups) :
    applyUpdates ups current p.1 =
      (match p.2 with
       | none => []
       | some e => [e]) := by
  induction ups generalizing current with
  | nil => cases hp
  | cons u rest ih =>
    rcases List.mem_cons.mp hp with rfl | hmem
    · have hnot : ∀ q ∈ rest, p.1 ≠ q.1 := by
        intro q hq he
        exact (List.nodup_cons.mp hnd).1 (he ▸ List.mem_map_of_mem Prod.fst hq)
      show applyUpdates rest _ p.1 = _
      rw [applyUpdates_frame rest _ p.1 hnot]
      simp
    · exact ih _ (List.nodup_cons.mp hnd).2 hmem

theorem applyUpdatesMulti_updated (ups : List (String × MultiEncoded))
    (current : String → MultiEncoded) (p : String × MultiEncoded)
    (hnd : (ups.map Prod.fst).Nodup) (hp : p ∈ ups) :
    applyUpdatesMulti ups current p.1 = (if p.2.length = 0 then [] else p.2) := by
  induction ups generalizing current with
  | nil => cases hp
  | cons u rest ih =>
    rcases List.mem_cons.mp hp with rfl | hmem
    · have hnot : ∀ q ∈ rest, p.1 ≠ q.1 := by
        intro q hq he
        exact (List.nodup_cons.mp hnd).1 (he ▸ List.mem_map_of_mem Prod.fst hq)
      show applyUpdatesMulti rest _ p.1 = _
      rw [applyUpdatesMulti_frame rest _ p.1 hnot]
      simp
    · exact ih _ (List.nodup_cons.mp hnd).2 hmem

/-- C6: a commit applies its updates to the full parsed state that is in
force at commit time: every key not named in the update keeps exactly its
current value list (including the order of its repeated values), an updated
key is set to its new value (removed when the new encoded value is absent),
and this holds for the single-key committer and for both batched
committers, over an arbitrary current parsed state (in the machine,
`timerFire` feeds `strategy.parse raw` — the freshly parsed state — as
`current`). -/
theorem writeToUrl_preserves_untouched_keys
    (key k : String) (e : String) (enc : Encoded)
    (current : String → MultiEncoded)
    (ups : List (String × Encoded)) (p : String × Encoded)
    (mups : List (String × MultiEncoded)) (q : String × MultiEncoded)
    (hk : k ≠ key) (hups : ∀ x ∈ ups, k ≠ x.1) (hmups : ∀ x ∈ mups, k ≠ x.1)
    (hnd : (ups.map Prod.fst).Nodup) (hpm : p ∈ ups)
    (hmnd : (mups.map Prod.fst).Nodup) (hqm : q ∈ mups) :
    writeToUrlParams key enc current k = current k ∧
    applyUpdates ups current k = current k ∧
    applyUpdatesMulti mups current k = current k ∧
    writeToUrlParams key (some e) current key = [e] ∧
    writeToUrlParams key none current key = [] ∧
    applyUpdates ups current p.1 =
      (match p.2 with
       | none => []
       | some x => [x]) ∧
    applyUpdatesMulti mups current q.1 = (if q.2.length = 0 then [] else q.2) := by
  refine ⟨?_, applyUpdates_frame ups current k hups,
    applyUpdatesMulti_frame mups current k hmups, ?_, ?_,
    applyUpdates_updated ups current p hnd hpm,
    applyUpdatesMulti_updated mups current q hmnd hqm⟩
  · simp [writeToUrlParams, hk]
  · simp [writeToUrlParams]
  · simp [writeToUrlParams]

/-- Witness for C6: committing `a := "1"` and removing `b` leaves the
untouched repeated-value key `u` exactly as it was and sets the named
keys. -/
theorem writeToUrl_preserves_untouched_keys_witness :
    ("u" : String) ≠ "a" ∧
    writeToUrlParams "a" (some "1") wParamsU "u" = wParamsU "u" ∧
    applyUpdates [("a", some "1"), ("b", none)] wParamsU "u" = wParamsU "u" ∧
    applyUpdates [("a", some "1"), ("b", none)] wParamsU "a" = ["1"] ∧
    applyUpdatesMulti [("m", ["x", "y"])] wParamsU "m" = ["x", "y"] :=
  ⟨by decide,
   (writeToUrl_preserves_untouched_keys "a" "u" "1" (some "1") wParamsU
      [("a", some "1"), ("b", none)] ("a", some "1") [("m", ["x", "y"])]
      ("m", ["x", "y"]) (by decide) (by decide) (by decide) (by decide)
      (by decide) (by decide) (by decide)).1,
   (writeToUrl_preserves_untouched_keys "a" "u" "1" (some "1") wParamsU
      [("a", some "1"), ("b", none)] ("a", some "1") [("m", ["x", "y"])]
      ("m", ["x", "y"]) (by decide) (by decide) (by decide) (by decide)
      (by decide) (by decide) (by decide)).2.1,
   (writeToUrl_preserves_untouched_keys "a" "u" "1" (some "1") wParamsU
      [("a", some "1"), ("b", none)] ("a", some "1") [("m", ["x", "y"])]
      ("m", ["x", "y"]) (by decide) (by decide) (by decide) (by decide)
      (by decide) (by decide) (by decide)).2.2.2.2.2.1,
   (writeToUrl_preserves_untouched_keys "a" "u" "1" (some "1") wParamsU
      [("a", some "1"), ("b", none)] ("a", some "1") [("m", ["x", "y"])]
      ("m", ["x", "y"]) (by decide) (by decide) (by decide) (by decide)
      (by decide) (by decide) (by decide)).2.2.2.2.2.2⟩

theorem setValuesEncode_fold_fst {V : Type} (params : String → Option (Param V))
    (updates : List (String × V)) :
    ∀ acc : List (String × (Encoded × V)) × (String → Option (Encoded × V)),
    (updates.foldl (setValuesStep params) acc).1
      = acc.1 ++ updates.filterMap (fun kv =>
          (params kv.1).map fun q => (kv.1, (q.encode kv.2, kv.2))) := by
  induction updates with
  | nil => intro acc; simp
  | cons u rest ih =>
    intro acc
    rw [List.foldl_cons, List.filterMap_cons, ih]
    match hu : params u.1 with
    | none => simp [setValuesStep, hu]
    | some p => simp [setValuesStep, hu]

theorem setValuesEncode_fold_snd_nokey {V : Type} (params : String → Option (Param V))
    (updates : List (String × V)) (k : String)
    (h : ∀ x ∈ updates, x.1 ≠ k) :
    ∀ acc : List (String × (Encoded × V)) × (String → Option (Encoded × V)),
    (updates.foldl (setValuesStep params) acc).2 k = acc.2 k := by
  induction updates with
  | nil => intro acc; rfl
  | cons u rest ih =>
    intro acc
    rw [List.foldl_cons, ih (fun x hx => h x (List.mem_cons_of_mem u hx))]
    have hne : ¬ (k = u.1) := fun he => h u (List.mem_cons_self u rest) he.symm
    match hu : params u.1 with
    | none => simp [setValuesStep, hu]
    | some p => simp [setValuesStep, hu, hne]

theorem setValuesEncode_fold_snd_unconfigured {V : Type}
    (params : String → Option (Param V))
    (updates : List (String × V)) (k : String)
    (h : ∀ x ∈ updates, x.1 = k → params x.1 = none) :
    ∀ acc : List (String × (Encoded × V)) × (String → Option (Encoded × V)),
    (updates.foldl (setValuesStep params) acc).2 k = acc.2 k := by
  induction updates with
  | nil => intro acc; rfl
  | cons u rest ih =>
    intro acc
    rw [List.foldl_cons, ih (fun x hx => h x (List.mem_cons_of_mem u hx))]
    match hu : params u.1 with
    | none => simp [setValuesStep, hu]
    | some p =>
      have hne : ¬ (k = u.1) := by
        intro he
        have := h u (List.mem_cons_self u rest) he.symm
        rw [hu] at this
        cases this
      simp [setValuesStep, hu, hne]

theorem setValuesEncode_fold_snd_configured {V : Type}
    (params : String → Option (Param V))
    (updates : List (String × V)) (k : String) (v : V) (p : Param V)
    (hnd : (updates.map Prod.fst).Nodup)
    (hkv : (k, v) ∈ updates) (hp : params k = some p) :
    ∀ acc : List (String × (Encoded × V)) × (String → Option (Encoded × V)),
    (updates.foldl (setValuesStep params) acc).2 k = some (p.encode v, v) := by
  induction updates with
  | nil => cases hkv
  | cons u rest ih =>
    intro acc
    rw [List.foldl_cons]
    rcases List.mem_cons.mp hkv with he | hmem
    · have hnotin := (List.nodup_cons.mp hnd).1
      have hrest : ∀ x ∈ rest, x.1 ≠ k := by
        intro x hx hxe
        apply hnotin
        rw [show u.1 = k by rw [← he]]
        rw [← hxe]
        exact List.mem_map_of_mem Prod.fst hx
      rw [setValuesEncode_fold_snd_nokey params rest k hrest]
      subst he
      simp [setValuesStep, hp]
    · exact ih (List.nodup_cons.mp hnd).2 hmem _

theorem setValuesEncodeMulti_fold_fst {V : Type}
    (params : String → Option (MultiParam V)) (updates : List (String × V)) :
    ∀ acc : List (String × MultiEncoded) × (String → Option (MultiEncoded × V)),
    (updates.foldl (setValuesStepMulti params) acc).1
      = acc.1 ++ updates.filterMap (fun kv =>
          (params kv.1).map fun q => (kv.1, q.encode kv.2)) := by
  induction updates with
  | nil => intro acc; simp
  | cons u rest ih =>
    intro acc
    rw [List.foldl_cons, List.filterMap_cons, ih]
    match hu : params u.1 with
    | none => simp [setValuesStepMulti, hu]
    | some p => simp [setValuesStepMulti, hu]

theorem setValuesEncodeMulti_fold_snd_nokey {V : Type}
    (params : String → Option (MultiParam V))
    (updates : List (String × V)) (k : String)
    (h : ∀ x ∈ updates, x.1 ≠ k) :
    ∀ acc : List (String × MultiEncoded) × (String → Option (MultiEncoded × V)),
    (updates.foldl (setValuesStepMulti params) acc).2 k = acc.2 k := by
  induction updates with
  | nil => intro acc; rfl
  | cons u rest ih =>
    intro acc
    rw [List.foldl_cons, ih (fun x hx => h x (List.mem_cons_of_mem u hx))]
    have hne : ¬ (k = u.1) := fun he => h u (List.mem_cons_self u rest) he.symm
    match hu : params u.1 with
    | none => simp [setValuesStepMulti, hu]
    | some p => simp [setValuesStepMulti, hu, hne]

theorem setValuesEncodeMulti_fold_snd_unconfigured {V : Type}
    (params : String → Option (MultiParam V))
    (updates : List (String × V)) (k : String)
    (h : ∀ x ∈ updates, x.1 = k → params x.1 = none) :
    ∀ acc : List (String × MultiEncoded) × (String → Option (MultiEncoded × V)),
    (updates.foldl (setValuesStepMulti params) acc).2 k = acc.2 k := by
  induction updates with
  | nil => intro acc; rfl
  | cons u rest ih =>
    intro acc
    rw [List.foldl_cons, ih (fun x hx => h x (List.mem_cons_of_mem u hx))]
    match hu : params u.1 with
    | none => simp [setValuesStepMulti, hu]
    | some p =>
      have hne : ¬ (k = u.1) := by
        intro he
        have := h u (List.mem_cons_self u rest) he.symm
        rw [hu] at this
        cases this
      simp [setValuesStepMulti, hu, hne]

theorem keys_filterMap_sublist {A B : Type} (f : String × A → Option (String × B))
    (hf : ∀ x y, f x = some y → y.1 = x.1) (l : List (String × A)) :
    ((l.filterMap f).map Prod.fst).Sublist (l.map Prod.fst) := by
  induction l with
  | nil => simp
  | cons u rest ih =>
    rw [List.filterMap_cons, List.map_cons]
    match hu : f u with
    | none => exact ih.cons u.1
    | some y =>
      rw [List.map_cons, hf u y hu]
      exact ih.cons₂ u.1

/-- C7: in a batched `setValues` (single- or multi-value variant), an update
key with no configured codec is silently skipped — the produced
`encodedUpdates` list is exactly the updates filtered to configured keys
(in iteration order, with their encodings), and the causality-record map is
untouched at any key all of whose update entries are unconfigured; the
functions are total, so no error is raised.  Updates for configured keys
are recorded and commit normally: the committed parameter map carries
their encoded value. -/
theorem setValues_skips_unconfigured_keys {V W : Type}
    (params : String → Option (Param V)) (mp : String → Option (MultiParam W))
    (updates : List (String × V)) (mupdates : List (String × W))
    (lw : String → Option (Encoded × V)) (mlw : String → Option (MultiEncoded × W))
    (current : String → MultiEncoded)
    (k k2 km : String) (v : V) (p : Param V) (w : W) (mq : MultiParam W)
    (hnd : (updates.map Prod.fst).Nodup)
    (hkv : (k, v) ∈ updates) (hp : params k = some p)
    (hmnd : (mupdates.map Prod.fst).Nodup)
    (hkw : (km, w) ∈ mupdates) (hmq : mp km = some mq)
    (hk2 : ∀ x ∈ updates, x.1 = k2 → params x.1 = none)
    (hk2m : ∀ x ∈ mupdates, x.1 = k2 → mp x.1 = none) :
    (setValuesEncode params updates lw).1
      = updates.filterMap (fun kv =>
          (params kv.1).map fun q => (kv.1, (q.encode kv.2, kv.2))) ∧
    (setValuesEncodeMulti mp mupdates mlw).1
      = mupdates.filterMap (fun kv =>
          (mp kv.1).map fun q => (kv.1, q.encode kv.2)) ∧
    (setValuesEncode params updates lw).2 k2 = lw k2 ∧
    (setValuesEncodeMulti mp mupdates mlw).2 k2 = mlw k2 ∧
    (setValuesEncode params updates lw).2 k = some (p.encode v, v) ∧
    applyUpdates ((setValuesEncode params updates lw).1.map fun x => (x.1, x.2.1))
        current k
      = (match p.encode v with
         | none => []
         | some x => [x]) ∧
    applyUpdatesMulti (setValuesEncodeMulti mp mupdates mlw).1 current km
      = (if (mq.encode w).length = 0 then [] else mq.encode w) := by
  have h1 : (setValuesEncode params updates lw).1
      = updates.filterMap (fun kv =>
          (params kv.1).map fun q => (kv.1, (q.encode kv.2, kv.2))) := by
    simpa [setValuesEncode] using setValuesEncode_fold_fst params updates ([], lw)
  have h2 : (setValuesEncodeMulti mp mupdates mlw).1
      = mupdates.filterMap (fun kv =>
          (mp kv.1).map fun q => (kv.1, q.encode kv.2)) := by
    simpa [setValuesEncodeMulti] using setValuesEncodeMulti_fold_fst mp mupdates ([], mlw)
  have hfs : ∀ (x : String × V) (y : String × (Encoded × V)),
      ((params x.1).map fun q => (x.1, (q.encode x.2, x.2))) = some y → y.1 = x.1 := by
    intro x y hxy
    match hq : params x.1 with
    | none => rw [hq] at hxy; cases hxy
    | some q =>
      rw [hq] at hxy
      simp only [Option.map_some', Option.some.injEq] at hxy
      rw [← hxy]
  have hfm : ∀ (x : String × W) (y : String × MultiEncoded),
      ((mp x.1).map fun q => (x.1, q.encode x.2)) = some y → y.1 = x.1 := by
    intro x y hxy
    match hq : mp x.1 with
    | none => rw [hq] at hxy; cases hxy
    | some q =>
      rw [hq] at hxy
      simp only [Option.map_some', Option.some.injEq] at hxy
      rw [← hxy]
  have hkeys : ((setValuesEncode params updates lw).1.map Prod.fst).Nodup := by
    rw [h1]
    exact List.Nodup.sublist (keys_filterMap_sublist _ hfs updates) hnd
  have hmkeys : ((setValuesEncodeMulti mp mupdates mlw).1.map Prod.fst).Nodup := by
    rw [h2]
    exact List.Nodup.sublist (keys_filterMap_sublist _ hfm mupdates) hmnd
  have hmem : (k, (p.encode v, v)) ∈ (setValuesEncode params updates lw).1 := by
    rw [h1]
    exact List.mem_filterMap.mpr ⟨(k, v), hkv, by simp [hp]⟩
  have hmmem : (km, mq.encode w) ∈ (setValuesEncodeMulti mp mupdates mlw).1 := by
    rw [h2]
    exact List.mem_filterMap.mpr ⟨(km, w), hkw, by simp [hmq]⟩
  have hmappedkeys :
      (((setValuesEncode params updates lw).1.map fun x => (x.1, x.2.1)).map
        Prod.fst).Nodup := by
    have : (((setValuesEncode params updates lw).1.map fun x => (x.1, x.2.1)).map
        Prod.fst) = (setValuesEncode params updates lw).1.map Prod.fst := by
      rw [List.map_map]
      rfl
    rw [this]
    exact hkeys
  refine ⟨h1, h2, ?_, ?_, ?_, ?_, ?_⟩
  · exact setValuesEncode_fold_snd_unconfigured params updates k2 hk2 ([], lw)
  · exact setValuesEncodeMulti_fold_snd_unconfigured mp mupdates k2 hk2m ([], mlw)
  · exact setValuesEncode_fold_snd_configured params updates k v p hnd hkv hp ([], lw)
  · exact applyUpdates_updated _ current (k, p.encode v) hmappedkeys
      (List.mem_map_of_mem _ hmem)
  · exact applyUpdatesMulti_updated _ current (km, mq.encode w) hmkeys hmmem

/-- Witness for C7: the unconfigured key `zz` contributes nothing — the
encoded updates are exactly the configured filter — the causality map is
untouched at `zz`, and the configured keys are recorded and committed. -/
theorem setValues_skips_unconfigured_keys_witness :
    ("a", 5) ∈ wUpdates ∧ wConfig "a" = some natParam ∧
    (setValuesEncode wConfig wUpdates (fun _ => none)).1
      = wUpdates.filterMap (fun kv =>
          (wConfig kv.1).map fun q => (kv.1, (q.encode kv.2, kv.2))) ∧
    (setValuesEncode wConfig wUpdates (fun _ => none)).2 "zz" = none ∧
    (setValuesEncode wConfig wUpdates (fun _ => none)).2 "a"
      = some (natParam.encode 5, 5) ∧
    applyUpdatesMulti (setValuesEncodeMulti wConfigMulti wUpdatesMulti
        (fun _ => none)).1 noParams "m"
      = (if (natMultiParam.encode 2).length = 0 then [] else natMultiParam.encode 2) :=
  ⟨by decide, by simp [wConfig],
   (setValues_skips_unconfigured_keys wConfig wConfigMulti wUpdates wUpdatesMulti
      (fun _ => none) (fun _ => none) noParams "a" "zz" "m" 5 natParam 2 natMultiParam
      (by decide) (by decide) (by simp [wConfig]) (by decide) (by decide)
      (by simp [wConfigMulti]) (fun x _ hxe => by rw [hxe]; rfl)
      (fun x _ hxe => by rw [hxe]; rfl)).1,
   (setValues_skips_unconfigured_keys wConfig wConfigMulti wUpdates wUpdatesMulti
      (fun _ => none) (fun _ => none) noParams "a" "zz" "m" 5 natParam 2 natMultiParam
      (by decide) (by decide) (by simp [wConfig]) (by decide) (by decide)
      (by simp [wConfigMulti]) (fun x _ hxe => by rw [hxe]; rfl)
      (fun x _ hxe => by rw [hxe]; rfl)).2.2.1,
   (setValues_skips_unconfigured_keys wConfig wConfigMulti wUpdates wUpdatesMulti
      (fun _ => none) (fun _ => none) noParams "a" "zz" "m" 5 natParam 2 natMultiParam
      (by decide) (by decide) (by simp [wConfig]) (by decide) (by decide)
      (by simp [wConfigMulti]) (fun x _ hxe => by rw [hxe]; rfl)
      (fun x _ hxe => by rw [hxe]; rfl)).2.2.2.2.1,
   (setValues_skips_unconfigured_keys wConfig wConfigMulti wUpdates wUpdatesMulti
      (fun _ => none) (fun _ => none) noParams "a" "zz" "m" 5 natParam 2 natMultiParam
      (by decide) (by decide) (by simp [wConfig]) (by decide) (by decide)
      (by simp [wConfigMulti]) (fun x _ hxe => by rw [hxe]; rfl)
      (fun x _ hxe => by rw [hxe]; rfl)).2.2.2.2.2.2⟩

theorem debCall_inv {α : Type} (ms now : Nat) (a : α) (s : DebSt α)
    (h : DebInv s) : DebInv (debCall ms now a s) := by
  right
  refine ⟨⟨s.nextId, now + ms, a⟩, ?_, rfl⟩
  rcases h with h | ⟨t, ht, hid⟩
  · unfold debCall
    rw [h]
    cases s.timeoutId <;> simp
  · unfold debCall
    rw [ht, hid]
    simp

theorem debTick_inv {α : Type} (now : Nat) (s : DebSt α) (h : DebInv s) :
    DebInv (debTick now s) := by
  rcases h with h | ⟨t, ht, hid⟩
  · left
    unfold debTick
    rw [h]
    rfl
  · by_cases hd : t.fireAt ≤ now
    · left
      unfold debTick
      rw [ht]
      simp [hd]
    · right
      refine ⟨t, ?_, ?_⟩
      · unfold debTick
        rw [ht]
        simp [hd]
        omega
      · unfold debTick
        rw [ht]
        simp [hd, hid]

theorem debStep_inv {α : Type} (ms : Nat) (s : DebSt α) (e : DebEv α)
    (h : DebInv s) : DebInv (debStep ms s e) := by
  cases e with
  | call now a => exact debCall_inv ms now a s h
  | tick now => exact debTick_inv now s h

theorem debRun_inv {α : Type} (ms : Nat) (es : List (DebEv α)) :
    ∀ s, DebInv s → DebInv (debRun ms es s) := by
  induction es with
  | nil => intro s h; exact h
  | cons e rest ih => intro s h; exact ih _ (debStep_inv ms s e h)

theorem debInv_length {α : Type} (s : DebSt α) (h : DebInv s) :
    s.tasks.length ≤ 1 := by
  rcases h with h | ⟨t, ht, _⟩
  · simp [h]
  · simp [ht]

theorem debRun_coalesce {α : Type} (ms : Nat) (calls : List (Nat × α)) :
    ∀ (t0 : Nat) (a0 : α) (n i : Nat) (cs : List α),
      ChainFrom ms t0 calls →
      (debRun ms (debEvents calls ++ [DebEv.tick ((calls.getLastD (t0, a0)).1 + ms)])
        { nextId := n, tasks := [⟨i, t0 + ms, a0⟩], timeoutId := some i,
          commits := cs }).commits = cs ++ [(calls.getLastD (t0, a0)).2] ∧
      (debRun ms (debEvents calls ++ [DebEv.tick ((calls.getLastD (t0, a0)).1 + ms)])
        { nextId := n, tasks := [⟨i, t0 + ms, a0⟩], timeoutId := some i,
          commits := cs }).tasks = [] := by
  induction calls with
  | nil =>
    intro t0 a0 n i cs _
    constructor <;> simp [debEvents, debRun, debStep, debTick]
  | cons c rest ih =>
    obtain ⟨t, a⟩ := c
    intro t0 a0 n i cs hch
    obtain ⟨h1, h2, h3⟩ := hch
    have hnotdue : ¬ (t0 + ms ≤ t) := by omega
    have hev : debEvents ((t, a) :: rest)
        = DebEv.tick t :: DebEv.call t a :: debEvents rest := by
      simp [debEvents]
    rw [hev, List.getLastD_cons, List.cons_append, List.cons_append]
    have hstep : debStep ms (debStep ms
        { nextId := n, tasks := [⟨i, t0 + ms, a0⟩], timeoutId := some i,
          commits := cs } (DebEv.tick t)) (DebEv.call t a)
        = { nextId := n + 1, tasks := [⟨n, t + ms, a⟩], timeoutId := some n,
            commits := cs } := by
      simp [debStep, debTick, debCall, hnotdue]
    have hrun : debRun ms (DebEv.tick t :: DebEv.call t a ::
        (debEvents rest ++ [DebEv.tick ((rest.getLastD (t, a)).1 + ms)]))
        { nextId := n, tasks := [⟨i, t0 + ms, a0⟩], timeoutId := some i,
          commits := cs }
        = debRun ms (debEvents rest ++ [DebEv.tick ((rest.getLastD (t, a)).1 + ms)])
            { nextId := n + 1, tasks := [⟨n, t + ms, a⟩], timeoutId := some n,
              commits := cs } := by
      show debRun ms _ (debStep ms (debStep ms _ (DebEv.tick t)) (DebEv.call t a)) = _
      rw [hstep]
    rw [hrun]
    exact ih t a (n + 1) n cs h3

/-- C3: with a positive debounce delay, any number `N ≥ 1` of calls to the
debounced function issued within one another's delay window produce exactly
one commit, carrying the last call's arguments: each call cancels the
previously scheduled timeout and schedules a single new one with the latest
payload, and at any point of any run started from a fresh debounced
function at most one timeout is live. -/
theorem debounce_coalesces_to_single_commit {α : Type} (ms : Nat)
    (first : Nat × α) (rest : List (Nat × α)) (es : List (DebEv α))
    (_hms : 0 < ms) (hch : ChainFrom ms first.1 rest) :
    (debRun ms (debEvents (first :: rest)
        ++ [DebEv.tick ((rest.getLastD first).1 + ms)]) debInit).commits
      = [(rest.getLastD first).2] ∧
    (debRun ms (debEvents (first :: rest)
        ++ [DebEv.tick ((rest.getLastD first).1 + ms)]) debInit).tasks = [] ∧
    (debRun ms es debInit).tasks.length ≤ 1 := by
  obtain ⟨t1, a1⟩ := first
  have hev : debEvents ((t1, a1) :: rest)
      = DebEv.tick t1 :: DebEv.call t1 a1 :: debEvents rest := by
    simp [debEvents]
  have hstep : debStep ms (debStep ms (debInit (α := α)) (DebEv.tick t1))
      (DebEv.call t1 a1)
      = { nextId := 1, tasks := [⟨0, t1 + ms, a1⟩], timeoutId := some 0,
          commits := [] } := by
    simp [debStep, debTick, debCall, debInit]
  have hrun : debRun ms (DebEv.tick t1 :: DebEv.call t1 a1 ::
      (debEvents rest ++ [DebEv.tick ((rest.getLastD (t1, a1)).1 + ms)])) debInit
      = debRun ms (debEvents rest ++ [DebEv.tick ((rest.getLastD (t1, a1)).1 + ms)])
          { nextId := 1, tasks := [⟨0, t1 + ms, a1⟩], timeoutId := some 0,
            commits := [] } := by
    show debRun ms _ (debStep ms (debStep ms _ (DebEv.tick t1)) (DebEv.call t1 a1)) = _
    rw [hstep]
  have hco := debRun_coalesce ms rest t1 a1 1 0 [] hch
  refine ⟨?_, ?_, debInv_length _ (debRun_inv ms es debInit (Or.inl rfl))⟩
  · rw [hev, List.cons_append, List.cons_append, hrun]
    simpa using hco.1
  · rw [hev, List.cons_append, List.cons_append, hrun]
    exact hco.2

/-- Witness for C3: three calls at times 0, 3, 6 with a 10-tick delay
produce the single commit `[3]` (the third call's payload) once time
reaches 16, and the run keeps at most one live timeout. -/
theorem debounce_coalesces_to_single_commit_witness :
    (0 : Nat) < 10 ∧
    ChainFrom 10 0 [(3, 2), (6, (3 : Nat))] ∧
    (debRun 10 (debEvents [(0, 1), (3, 2), (6, 3)]
        ++ [DebEv.tick ((([(3, 2), (6, 3)] : List (Nat × Nat)).getLastD (0, 1)).1
          + 10)]) debInit).commits = [3] ∧
    (debRun 10 (debEvents [((0 : Nat), (1 : Nat))]) debInit).tasks.length ≤ 1 :=
  ⟨by decide,
   ⟨by decide, by decide, by decide, by decide, trivial⟩,
   (debounce_coalesces_to_single_commit 10 (0, 1) [(3, 2), (6, 3)]
      (debEvents [((0 : Nat), (1 : Nat))]) (by decide)
      ⟨by decide, by decide, by decide, by decide, trivial⟩).1,
   (debounce_coalesces_to_single_commit 10 (0, 1) [(3, 2), (6, 3)]
      (debEvents [((0 : Nat), (1 : Nat))]) (by decide)
      ⟨by decide, by decide, by decide, by decide, trivial⟩).2.2⟩

theorem lor_eq_add {a b k : Nat} (hd : 2 ^ k ∣ a) (hb : b < 2 ^ k) :
    a ||| b = a + b := by
  obtain ⟨c, rfl⟩ := hd
  exact (Nat.mul_add_lt_is_or hb c).symm

theorem and63_eq (n : Nat) : n &&& 63 = n % 64 := by
  have := Nat.and_pow_two_sub_one_eq_mod n 6
  norm_num at this
  exact this

theorem and255_eq (n : Nat) : n &&& 255 = n % 256 := by
  have := Nat.and_pow_two_sub_one_eq_mod n 8
  norm_num at this
  exact this

theorem and63_lt (n : Nat) : n &&& 63 < 64 := by
  have := Nat.and_lt_two_pow n (show 63 < 2 ^ 6 by norm_num)
  norm_num at this
  exact this

theorem compose3 (b0 b1 b2 : Nat) (h1 : b1 < 256) (h2 : b2 < 256) :
    (b0 <<< 16) ||| (b1 <<< 8) ||| b2 = b0 * 65536 + b1 * 256 + b2 := by
  have e1 : (b0 <<< 16) ||| (b1 <<< 8) = b0 * 65536 + b1 * 256 := by
    have h := lor_eq_add (a := b0 <<< 16) (b := b1 <<< 8) (k := 16)
      ⟨b0, by rw [Nat.shiftLeft_eq]; ring⟩
      (by rw [Nat.shiftLeft_eq]; norm_num; omega)
    rw [h, Nat.shiftLeft_eq, Nat.shiftLeft_eq]
  rw [e1]
  have h := lor_eq_add (a := b0 * 65536 + b1 * 256) (b := b2) (k := 8)
    ⟨b0 * 256 + b1, by ring⟩
    (by have hp : (2 : Nat) ^ 8 = 256 := by norm_num
        omega)
  rw [h]

theorem compose4 (i0 i1 i2 i3 : Nat) (g1 : i1 < 64) (g2 : i2 < 64) (g3 : i3 < 64) :
    (i0 <<< 18) ||| (i1 <<< 12) ||| (i2 <<< 6) ||| i3
      = i0 * 262144 + i1 * 4096 + i2 * 64 + i3 := by
  have e1 : (i0 <<< 18) ||| (i1 <<< 12) = i0 * 262144 + i1 * 4096 := by
    have h := lor_eq_add (a := i0 <<< 18) (b := i1 <<< 12) (k := 18)
      ⟨i0, by rw [Nat.shiftLeft_eq]; ring⟩
      (by rw [Nat.shiftLeft_eq]; norm_num; omega)
    rw [h, Nat.shiftLeft_eq, Nat.shiftLeft_eq]
  rw [e1]
  have e2 : i0 * 262144 + i1 * 4096 ||| (i2 <<< 6) =
      i0 * 262144 + i1 * 4096 + i2 * 64 := by
    have h := lor_eq_add (a := i0 * 262144 + i1 * 4096) (b := i2 <<< 6) (k := 12)
      ⟨i0 * 64 + i1, by ring⟩
      (by rw [Nat.shiftLeft_eq]; norm_num; omega)
    rw [h, Nat.shiftLeft_eq]
  rw [e2]
  have h := lor_eq_add (a := i0 * 262144 + i1 * 4096 + i2 * 64) (b := i3) (k := 6)
    ⟨i0 * 4096 + i1 * 64 + i2, by ring⟩
    (by have hp : (2 : Nat) ^ 6 = 64 := by norm_num
        omega)
  rw [h]

theorem b64lookup_getD : ∀ i : Fin 64,
    b64lookup (BASE64_CHARS.getD i.val 'A') = some i.val := by decide

theorem b64lookup_getD_val (i : Nat) (h : i < 64) :
    (b64lookup (BASE64_CHARS.getD i 'A')).getD 0 = i := by
  rw [b64lookup_getD ⟨i, h⟩]
  rfl

theorem base64_getD_mem (i : Nat) (h : i < 64) :
    BASE64_CHARS.getD i 'A' ∈ BASE64_CHARS := by
  have hlen : i < BASE64_CHARS.length := by
    rw [show BASE64_CHARS.length = 64 from rfl]
    exact h
  rw [List.getD_eq_getElem _ _ hlen]
  exact List.getElem_mem hlen

theorem base64Encode_length : ∀ b : List Nat,
    (base64Encode b).length = (4 * b.length + 2) / 3
  | [] => by simp [base64Encode]
  | [b0] => by simp [base64Encode]
  | [b0, b1] => by simp [base64Encode]
  | b0 :: b1 :: b2 :: rest => by
    have ih := base64Encode_length rest
    simp only [base64Encode, List.cons_append, List.nil_append, List.length_cons, ih]
    omega

theorem base64Encode_mem : ∀ b : List Nat, ∀ c ∈ base64Encode b, c ∈ BASE64_CHARS
  | [] => by simp [base64Encode]
  | [b0] => by
    intro c hc
    simp only [base64Encode, List.mem_cons, List.not_mem_nil, or_false] at hc
    rcases hc with rfl | rfl <;> exact base64_getD_mem _ (and63_lt _)
  | [b0, b1] => by
    intro c hc
    simp only [base64Encode, List.mem_cons, List.not_mem_nil, or_false] at hc
    rcases hc with rfl | rfl | rfl <;> exact base64_getD_mem _ (and63_lt _)
  | b0 :: b1 :: b2 :: rest => by
    intro c hc
    simp only [base64Encode, List.cons_append, List.nil_append, List.mem_cons] at hc
    rcases hc with rfl | rfl | rfl | rfl | hmem
    · exact base64_getD_mem _ (and63_lt _)
    · exact base64_getD_mem _ (and63_lt _)
    · exact base64_getD_mem _ (and63_lt _)
    · exact base64_getD_mem _ (and63_lt _)
    · exact base64Encode_mem rest c hmem

theorem stripTrailingEq_of_no_eq (l : List Char) (h : ∀ c ∈ l, c ≠ '=') :
    stripTrailingEq l = l := by
  unfold stripTrailingEq
  cases hrev : l.reverse with
  | nil =>
    have : l = [] := by simpa using congrArg List.reverse hrev
    simp [this]
  | cons x xs =>
    have hx : x ∈ l := by
      rw [← List.mem_reverse, hrev]
      exact List.mem_cons_self x xs
    have hxe : (x == '=') = false := by
      simpa using h x hx
    rw [List.dropWhile_cons_of_neg (by simp [hxe]), ← hrev,
      List.reverse_reverse]

theorem base64DecodeChunks_encode : ∀ b : List Nat, (∀ x ∈ b, x < 256) →
    base64DecodeChunks (base64Encode b) = b
  | [], _ => rfl
  | [b0], h => by
    have h0 : b0 < 256 := h b0 (by simp)
    simp only [base64Encode, base64DecodeChunks]
    rw [b64lookup_getD_val _ (and63_lt _), b64lookup_getD_val _ (and63_lt _)]
    rw [compose4 _ _ 0 0 (and63_lt _) (by norm_num) (by norm_num)]
    rw [compose3 b0 0 0 (by norm_num) (by norm_num)]
    simp only [Nat.shiftRight_eq_div_pow, and63_eq, and255_eq, List.cons.injEq,
      and_true]
    norm_num
    omega
  | [b0, b1], h => by
    have h0 : b0 < 256 := h b0 (by simp)
    have h1 : b1 < 256 := h b1 (by simp)
    simp only [base64Encode, base64DecodeChunks]
    rw [b64lookup_getD_val _ (and63_lt _), b64lookup_getD_val _ (and63_lt _),
      b64lookup_getD_val _ (and63_lt _)]
    rw [compose4 _ _ _ 0 (and63_lt _) (and63_lt _) (by norm_num)]
    rw [compose3 b0 b1 0 h1 (by norm_num)]
    simp only [Nat.shiftRight_eq_div_pow, and63_eq, and255_eq, List.cons.injEq,
      and_true]
    norm_num
    omega
  | b0 :: b1 :: b2 :: rest, h => by
    have h0 : b0 < 256 := h b0 (by simp)
    have h1 : b1 < 256 := h b1 (by simp)
    have h2 : b2 < 256 := h b2 (by simp)
    have ih := base64DecodeChunks_encode rest
      (fun x hx => h x (by simp [hx]))
    simp only [base64Encode, List.cons_append, List.nil_append, base64DecodeChunks]
    rw [b64lookup_getD_val _ (and63_lt _), b64lookup_getD_val _ (and63_lt _),
      b64lookup_getD_val _ (and63_lt _), b64lookup_getD_val _ (and63_lt _)]
    rw [compose4 _ _ _ _ (and63_lt _) (and63_lt _) (and63_lt _)]
    rw [compose3 b0 b1 b2 h1 h2]
    simp only [Nat.shiftRight_eq_div_pow, and63_eq, and255_eq, List.append_eq,
      List.cons_append, List.nil_append, List.cons.injEq, ih, and_true]
    norm_num
    omega

/-- C8: `base64Decode` inverts `base64Encode` on every byte array (bytes
are values below 256), `base64Encode` emits only characters of the
base64url alphabet — in particular never `+`, `/`, or `=` padding — and the
output length is `⌈4·len/3⌉` (i.e. `(4·len + 2) / 3` in integer
division). -/
theorem base64_roundtrip_alphabet_length (b : List Nat)
    (hb : ∀ x ∈ b, x < 256) :
    base64Decode (base64Encode b) = b ∧
    (∀ c ∈ base64Encode b, c ∈ BASE64_CHARS) ∧
    (∀ c ∈ base64Encode b, c ≠ '+' ∧ c ≠ '/' ∧ c ≠ '=') ∧
    (base64Encode b).length = (4 * b.length + 2) / 3 := by
  have hmem := base64Encode_mem b
  have hne : ∀ c ∈ base64Encode b, c ≠ '+' ∧ c ≠ '/' ∧ c ≠ '=' := by
    intro c hc
    have hcm := hmem c hc
    refine ⟨?_, ?_, ?_⟩ <;> intro hcontra <;> rw [hcontra] at hcm <;> revert hcm <;>
      decide
  refine ⟨?_, hmem, hne, base64Encode_length b⟩
  unfold base64Decode
  rw [stripTrailingEq_of_no_eq _ (fun c hc => (hne c hc).2.2)]
  exact base64DecodeChunks_encode b hb

/-- Witness for C8: the bytes `[0, 1, 254, 255]` round-trip through
base64url. -/
theorem base64_roundtrip_alphabet_length_witness :
    (∀ x ∈ [0, 1, 254, 255], x < 256) ∧
    base64Decode (base64Encode [0, 1, 254, 255]) = [0, 1, 254, 255] ∧
    (base64Encode [0, 1, 254, 255]).length = (4 * 4 + 2) / 3 :=
  ⟨by decide,
   (base64_roundtrip_alphabet_length [0, 1, 254, 255] (by decide)).1,
   (base64_roundtrip_alphabet_length [0, 1, 254, 255] (by decide)).2.2.2⟩

/-- C9: `binaryParam`'s decode is total (it is a Lean function into
`Option`, with thrown exceptions of the byte converter modelled as `none`):
decoding absence or the empty string yields `null`, and an exception from
the byte conversion yields `null`; symmetrically, encoding `null` or a
value whose byte representation is empty yields absence. -/
theorem binaryParam_total_decode_encode {T : Type}
    (options : BinaryParamOptions T) (s : String) (v : T)
    (hthrow : options.fromBytes (base64Decode s.data) = none)
    (hempty : options.toBytes v = []) :
    (binaryParam options).decode none = none ∧
    (binaryParam options).decode (some "") = none ∧
    (binaryParam options).decode (some s) = none ∧
    (binaryParam options).encode none = none ∧
    (binaryParam options).encode (some v) = none := by
  refine ⟨rfl, rfl, ?_, rfl, ?_⟩
  · by_cases hs : s = ""
    · simp [binaryParam, hs]
    · simp [binaryParam, hs, hthrow]
  · simp [binaryParam, hempty]

/-- Witness for C9: with an always-throwing `fromBytes`, decoding `"QQ"`
yields `null`; encoding `0` (empty byte representation) yields absence. -/
theorem binaryParam_total_decode_encode_witness :
    wBinOpts.fromBytes (base64Decode ("QQ" : String).data) = none ∧
    wBinOpts.toBytes 0 = [] ∧
    (binaryParam wBinOpts).decode (some "QQ") = none ∧
    (binaryParam wBinOpts).encode (some 0) = none :=
  ⟨rfl, rfl,
   (binaryParam_total_decode_encode wBinOpts "QQ" 0 rfl rfl).2.2.1,
   (binaryParam_total_decode_encode wBinOpts "QQ" 0 rfl rfl).2.2.2.2⟩

end UsePrms
